import Mathlib

/-!
Verification development for `torch/distributions/wishart.py`: a shallow
embedding of the Wishart distribution implementation (parameter validation,
the three constructor parameterizations, derived covariance/precision
accessors, the Bartlett sampler with its singular-sample correction loop,
log-density, entropy, and the exponential-family natural-parameter path),
together with theorems checking the specification's statements against it.

Conventions of the embedding:
* real scalars are modelled over an arbitrary linearly ordered field `K`
  (exact arithmetic; results are instantiated at `ℚ` for concrete checks);
* special functions supplied by the numerics collaborator (`log`, `digamma`,
  `mvlgamma`, `sqrt`) and the Cholesky factorization are parameters of the
  definitions that use them;
* a batch of `df` values is a `List K`; a single matrix slot is a
  `Matrix (Fin p) (Fin p) K`;
* Python exceptions are modelled with `Except PyErr`.
-/

set_option maxHeartbeats 1000000

namespace WishartVerify

open scoped Matrix

/-- Python exceptions raised (directly or by collaborators) in `wishart.py`. -/
inductive PyErr where
  | assertionError
  | valueError
  | notPositiveDefinite
  | nameError
deriving DecidableEq, Repr

variable {K : Type} [LinearOrderedField K]

/-- One row of forward substitution: the `i`-th entry of the solution `y` of
`L y = b` for a lower-triangular `L`, computed as in a triangular solve:
`y i = (b i - ∑_{k < i} L i k * y k) / L i i`. -/
def forwardSubstVec {n : ℕ} (L : Matrix (Fin n) (Fin n) K) (b : Fin n → K)
    (i : Fin n) : K :=
  (b i - ∑ k ∈ (Finset.univ.filter (fun k : Fin n => k < i)).attach,
      L i k.1 * forwardSubstVec L b k.1) / L i i
termination_by i.1
decreasing_by
  exact (Finset.mem_filter.mp k.2).2

/-- Backward substitution: the `i`-th entry of the solution `x` of `U x = b`
for an upper-triangular `U`: `x i = (b i - ∑_{k > i} U i k * x k) / U i i`. -/
def backSubstVec {n : ℕ} (U : Matrix (Fin n) (Fin n) K) (b : Fin n → K)
    (i : Fin n) : K :=
  (b i - ∑ k ∈ (Finset.univ.filter (fun k : Fin n => i < k)).attach,
      U i k.1 * backSubstVec U b k.1) / U i i
termination_by n - i.1
decreasing_by
  have h1 : i.1 < k.1.1 := (Finset.mem_filter.mp k.2).2
  omega

/-- Matrix forward substitution, column by column: solves `L Y = B`. -/
def forwardSubst {n : ℕ} (L B : Matrix (Fin n) (Fin n) K) :
    Matrix (Fin n) (Fin n) K :=
  Matrix.of fun i j => forwardSubstVec L (fun r => B r j) i

/-- Matrix backward substitution, column by column: solves `U X = Y`. -/
def backSubst {n : ℕ} (U Y : Matrix (Fin n) (Fin n) K) :
    Matrix (Fin n) (Fin n) K :=
  Matrix.of fun i j => backSubstVec U (fun r => Y r j) i

/-- `torch.cholesky_solve(B, L)`: solves `(L Lᵗ) X = B` by two triangular
solves, first `L Y = B` (forward substitution), then `Lᵗ X = Y` (backward
substitution); no dense inverse is formed. -/
def choleskySolve {n : ℕ} (B L : Matrix (Fin n) (Fin n) K) :
    Matrix (Fin n) (Fin n) K :=
  backSubst Lᵀ (forwardSubst L B)

/-- `L` is lower triangular: entries strictly above the diagonal vanish. -/
def IsLowerTri {n : ℕ} (L : Matrix (Fin n) (Fin n) K) : Prop :=
  ∀ i j : Fin n, i < j → L i j = 0

/-- The diagonal of `L` has no zero entry (so the triangular solves are exact). -/
def HasUnitDiagDom {n : ℕ} (L : Matrix (Fin n) (Fin n) K) : Prop :=
  ∀ i : Fin n, L i i ≠ 0

instance {n : ℕ} (L : Matrix (Fin n) (Fin n) K) : Decidable (IsLowerTri L) := by
  unfold IsLowerTri; infer_instance

instance {n : ℕ} (L : Matrix (Fin n) (Fin n) K) : Decidable (HasUnitDiagDom L) := by
  unfold HasUnitDiagDom; infer_instance

theorem forwardSubstVec_spec {n : ℕ} (L : Matrix (Fin n) (Fin n) K)
    (hL : IsLowerTri L) (hd : HasUnitDiagDom L) (b : Fin n → K) (i : Fin n) :
    ∑ k : Fin n, L i k * forwardSubstVec L b k = b i := by
  classical
  have hsplit :
      ∑ k : Fin n, L i k * forwardSubstVec L b k =
        (∑ k ∈ Finset.univ.filter (fun k : Fin n => k < i),
            L i k * forwardSubstVec L b k)
        + ∑ k ∈ Finset.univ.filter (fun k : Fin n => ¬ k < i),
            L i k * forwardSubstVec L b k :=
    (Finset.sum_filter_add_sum_filter_not _ _ _).symm
  have hupper :
      ∑ k ∈ Finset.univ.filter (fun k : Fin n => ¬ k < i),
          L i k * forwardSubstVec L b k = L i i * forwardSubstVec L b i := by
    refine Finset.sum_eq_single i ?_ ?_
    · intro k hk hki
      rcases Finset.mem_filter.mp hk with ⟨-, hk2⟩
      have : i < k := lt_of_le_of_ne (not_lt.mp hk2) (Ne.symm hki)
      rw [hL i k this, zero_mul]
    · intro h
      exact absurd (Finset.mem_filter.mpr ⟨Finset.mem_univ i, lt_irrefl i⟩) h
  have hunfold : forwardSubstVec L b i =
      (b i - ∑ k ∈ (Finset.univ.filter (fun k : Fin n => k < i)).attach,
          L i k.1 * forwardSubstVec L b k.1) / L i i := by
    rw [forwardSubstVec]
  have hattach :
      ∑ k ∈ (Finset.univ.filter (fun k : Fin n => k < i)).attach,
          L i k.1 * forwardSubstVec L b k.1 =
        ∑ k ∈ Finset.univ.filter (fun k : Fin n => k < i),
          L i k * forwardSubstVec L b k :=
    Finset.sum_attach (Finset.univ.filter (fun k : Fin n => k < i))
      (fun k => L i k * forwardSubstVec L b k)
  rw [hsplit, hupper, hunfold, hattach,
    mul_div_cancel₀ _ (hd i)]
  ring

theorem backSubstVec_spec {n : ℕ} (U : Matrix (Fin n) (Fin n) K)
    (hU : ∀ i j : Fin n, j < i → U i j = 0) (hd : HasUnitDiagDom U)
    (b : Fin n → K) (i : Fin n) :
    ∑ k : Fin n, U i k * backSubstVec U b k = b i := by
  classical
  have hsplit :
      ∑ k : Fin n, U i k * backSubstVec U b k =
        (∑ k ∈ Finset.univ.filter (fun k : Fin n => i < k),
            U i k * backSubstVec U b k)
        + ∑ k ∈ Finset.univ.filter (fun k : Fin n => ¬ i < k),
            U i k * backSubstVec U b k :=
    (Finset.sum_filter_add_sum_filter_not _ _ _).symm
  have hlower :
      ∑ k ∈ Finset.univ.filter (fun k : Fin n => ¬ i < k),
          U i k * backSubstVec U b k = U i i * backSubstVec U b i := by
    refine Finset.sum_eq_single i ?_ ?_
    · intro k hk hki
      rcases Finset.mem_filter.mp hk with ⟨-, hk2⟩
      have : k < i := lt_of_le_of_ne (not_lt.mp hk2) hki
      rw [hU i k this, zero_mul]
    · intro h
      exact absurd (Finset.mem_filter.mpr ⟨Finset.mem_univ i, lt_irrefl i⟩) h
  have hunfold : backSubstVec U b i =
      (b i - ∑ k ∈ (Finset.univ.filter (fun k : Fin n => i < k)).attach,
          U i k.1 * backSubstVec U b k.1) / U i i := by
    rw [backSubstVec]
  have hattach :
      ∑ k ∈ (Finset.univ.filter (fun k : Fin n => i < k)).attach,
          U i k.1 * backSubstVec U b k.1 =
        ∑ k ∈ Finset.univ.filter (fun k : Fin n => i < k),
          U i k * backSubstVec U b k :=
    Finset.sum_attach (Finset.univ.filter (fun k : Fin n => i < k))
      (fun k => U i k * backSubstVec U b k)
  rw [hsplit, hlower, hunfold, hattach,
    mul_div_cancel₀ _ (hd i)]
  ring

/-- Forward substitution really solves `L Y = B`. -/
theorem forwardSubst_solves {n : ℕ} (L B : Matrix (Fin n) (Fin n) K)
    (hL : IsLowerTri L) (hd : HasUnitDiagDom L) :
    L * forwardSubst L B = B := by
  ext i j
  simpa [Matrix.mul_apply, forwardSubst] using
    forwardSubstVec_spec L hL hd (fun r => B r j) i

/-- Backward substitution really solves `U X = Y` for upper-triangular `U`. -/
theorem backSubst_solves {n : ℕ} (U Y : Matrix (Fin n) (Fin n) K)
    (hU : ∀ i j : Fin n, j < i → U i j = 0) (hd : HasUnitDiagDom U) :
    U * backSubst U Y = Y := by
  ext i j
  simpa [Matrix.mul_apply, backSubst] using
    backSubstVec_spec U hU hd (fun r => Y r j) i

/-- `choleskySolve B L` solves `(L * Lᵀ) X = B`. -/
theorem choleskySolve_solves {n : ℕ} (B L : Matrix (Fin n) (Fin n) K)
    (hL : IsLowerTri L) (hd : HasUnitDiagDom L) :
    (L * Lᵀ) * choleskySolve B L = B := by
  have hUt : ∀ i j : Fin n, j < i → Lᵀ i j = 0 := fun i j hji => hL j i hji
  have hdt : HasUnitDiagDom Lᵀ := fun i => hd i
  rw [choleskySolve, Matrix.mul_assoc,
    backSubst_solves Lᵀ (forwardSubst L B) hUt hdt,
    forwardSubst_solves L B hL hd]

/-! ### Construction (`Wishart.__init__`, wishart.py lines 60-116) -/

/-- A supplied parameter tensor: its number of axes (`Tensor.dim()`) and the
square-matrix content of its trailing two axes (one batch element shown). -/
structure Tensor2 (K : Type) (p : ℕ) where
  ndim : ℕ
  mat : Matrix (Fin p) (Fin p) K

/-- The class-level `Wishart.arg_constraints` entry for `df` (wishart.py
lines 51-56): `constraints.greater_than(dfGreaterThan)`; a single dictionary
shared by the class, hence by every instance. -/
structure ArgConstraints (K : Type) where
  dfGreaterThan : K
deriving DecidableEq

/-- The bound installed at class-definition time, `constraints.greater_than(0)`
(wishart.py line 55). -/
def initialArgConstraints : ArgConstraints K := ⟨0⟩

/-- The fields of one constructed `Wishart` instance used by the claims:
the `df` batch, the canonical factor `_unbroadcasted_scale_tril`, and whether
the low-`df` warning fired. -/
structure WishartState (K : Type) (p : ℕ) where
  df : List K
  unbroadcastedScaleTril : Matrix (Fin p) (Fin p) K
  lowDfWarning : Bool

/-- Modelled from the spec: `_precision_to_scale_tril` is imported from
`torch.distributions.multivariate_normal` (wishart.py line 10), whose source
is not part of this snapshot.  Spec §4.1: "from precision: invert via
Cholesky-of-precision then triangular back-substitution against the identity,
producing the scale factor without forming a dense inverse."  `chol` is the
collaborator Cholesky factorization (`none` = factorization failure). -/
def precisionToScaleTril {p : ℕ}
    (chol : Matrix (Fin p) (Fin p) K → Option (Matrix (Fin p) (Fin p) K))
    (P : Matrix (Fin p) (Fin p) K) : Option (Matrix (Fin p) (Fin p) K) :=
  (chol P).map fun Lp => (forwardSubst Lp 1)ᵀ

/-- `Wishart.__init__` (wishart.py lines 60-116) in source order: the
exactly-one-parameterization assertion (line 66), the `param.dim() < 2` check
(line 71), the `df > p - 1` validation (line 82, raising `ValueError`), the
class-level `arg_constraints['df']` update (line 92), the low-`df` warning
test (line 93), and the resolution of `_unbroadcasted_scale_tril`
(lines 99-104: `scale_tril` used as-is, `covariance_matrix` through
`torch.linalg.cholesky`, `precision_matrix` through
`_precision_to_scale_tril`).  Returns the raised exception or the constructed
state, paired with the (possibly mutated) class-level constraint entry. -/
def wishartInit {p : ℕ} (df : List K)
    (covariance_matrix precision_matrix scale_tril : Option (Tensor2 K p))
    (chol : Matrix (Fin p) (Fin p) K → Option (Matrix (Fin p) (Fin p) K))
    (cls : ArgConstraints K) :
    Except PyErr (WishartState K p) × ArgConstraints K :=
  if covariance_matrix.isSome.toNat + scale_tril.isSome.toNat +
      precision_matrix.isSome.toNat ≠ 1 then
    (.error .assertionError, cls)
  else
    match covariance_matrix <|> precision_matrix <|> scale_tril with
    | none => (.error .assertionError, cls)
    | some param =>
      if param.ndim < 2 then (.error .valueError, cls)
      else if df.any (fun d => decide (d ≤ (p : K) - 1)) then
        (.error .valueError, cls)
      else
        let cls2 : ArgConstraints K := ⟨(p : K) - 1⟩
        let warn := df.any fun d => decide (d < (p : K))
        match scale_tril, covariance_matrix, precision_matrix with
        | some st, _, _ => (.ok ⟨df, st.mat, warn⟩, cls2)
        | none, some cov, _ =>
          match chol cov.mat with
          | some L => (.ok ⟨df, L, warn⟩, cls2)
          | none => (.error .notPositiveDefinite, cls2)
        | none, none, some pr =>
          match precisionToScaleTril chol pr.mat with
          | some L => (.ok ⟨df, L, warn⟩, cls2)
          | none => (.error .notPositiveDefinite, cls2)
        | none, none, none => (.error .assertionError, cls2)

/-! ### Derived accessors (wishart.py lines 151-171) -/

/-- `Wishart.covariance_matrix` (lines 156-160): `L @ Lᵀ` from the unbroadcast
canonical scale factor (the broadcast to the batch shape is elided in this
elementwise model). -/
def covariance_matrix {p : ℕ} (L : Matrix (Fin p) (Fin p) K) :
    Matrix (Fin p) (Fin p) K :=
  L * Lᵀ

/-- `Wishart.precision_matrix` (lines 162-171):
`torch.cholesky_solve(identity, L)`, i.e. the solution `X` of `(L Lᵀ) X = I`
by two triangular solves; no generic matrix inverse is formed. -/
def precision_matrix {p : ℕ} (L : Matrix (Fin p) (Fin p) K) :
    Matrix (Fin p) (Fin p) K :=
  choleskySolve 1 L

/-! ### Bartlett sampling (wishart.py lines 106-116 and 183-195) -/

/-- The chi-squared degrees-of-freedom vector built at construction for
`self._dist_chi2` (wishart.py lines 106-116):
`df.unsqueeze(-1) - torch.arange(p)`, one batch element shown. -/
def bartlettChi2Df {p : ℕ} (df : K) : Fin p → K :=
  fun i => df - ((i : ℕ) : K)

/-- The Bartlett noise factor (lines 187-193): square roots of the chi-squared
draws `diag_embed`ded on the diagonal, the supplied standard-normal draws `z`
in the `torch.tril_indices(p, p, offset=-1)` positions, zero elsewhere. -/
def bartlettNoise {p : ℕ} (sqrtf : K → K) (chi2 : Fin p → K)
    (z : Fin p → Fin p → K) : Matrix (Fin p) (Fin p) K :=
  Matrix.of fun i j =>
    if i = j then sqrtf (chi2 i) else if j < i then z i j else 0

/-- `Wishart._bartlett_sampling` (lines 183-195) once the noise matrix is
assembled: `chol = _unbroadcasted_scale_tril @ noise`; returns
`chol @ chol.transpose(-2, -1)`. -/
def _bartlett_sampling {p : ℕ} (L noise : Matrix (Fin p) (Fin p) K) :
    Matrix (Fin p) (Fin p) K :=
  (L * noise) * (L * noise)ᵀ

/-- The strictly-below-diagonal positions filled by
`torch.tril_indices(p, p, offset=-1)` (line 188). -/
def trilStrictIndices (p : ℕ) : Finset (Fin p × Fin p) :=
  Finset.univ.filter fun ij => ij.2 < ij.1

/-! ### The `rsample` correction loop (wishart.py lines 197-245)

The sample type is abstract (`M`); the random source is a stream `draw`
(successive Bartlett draws, one matrix per flattened slot) and the
positive-definiteness test `support.check` (one boolean per slot:
`constraints.positive_definite.check`, i.e. Cholesky success) is `check`.
The batch shape is empty, so `support.check` produces exactly one boolean per
slot of the flattened `sample_shape` (`m` slots) and the `amax` reduction of
line 216 does not run. -/

/-- The `max_try_correction` default (wishart.py lines 207-208): `3` when
`torch._C._get_tracing_state()` is truthy (trace/graph capture), else `10`. -/
def defaultMaxTry (tracing : Bool) : ℕ :=
  if tracing then 3 else 10

/-- Resolution of the `max_try_correction` argument: `None` picks the default. -/
def resolveMaxTry (arg : Option ℕ) (tracing : Bool) : ℕ :=
  arg.getD (defaultMaxTry tracing)

/-- State of the correction loop: current per-slot samples, the current
`is_singular` mask, how many draws the stream has yielded so far, and how many
loop iterations have executed. -/
structure RsState (M : Type) (m : ℕ) where
  sample : Fin m → M
  mask : Fin m → Bool
  used : ℕ
  tries : ℕ

/-- Number of `true` slots of a mask: `is_singular[is_singular].shape[0]`. -/
def maskCount {m : ℕ} (mask : Fin m → Bool) : ℕ :=
  (Finset.univ.filter fun j : Fin m => mask j = true).card

/-- Rank of slot `i` among the `true` slots: Python boolean-mask assignment
`sample[is_singular] = sample_new` stores the `r`-th fresh draw into the
`r`-th flagged slot in index order. -/
def maskRank {m : ℕ} (mask : Fin m → Bool) (i : Fin m) : ℕ :=
  (Finset.univ.filter fun j : Fin m => mask j = true ∧ j < i).card

/-- One iteration of the eager correction loop (wishart.py lines 233-240):
draw `maskCount` fresh samples (`_bartlett_sampling(is_singular[is_singular].shape)`),
store them into the flagged slots, recompute singularity of the fresh draws
as `~support.check(sample_new)` (line 237, negated), and write those flags
back into the flagged positions (line 240). -/
def rsStep {M : Type} {m : ℕ} (check : M → Bool) (draw : ℕ → M)
    (s : RsState M m) : RsState M m :=
  let newAt : Fin m → M := fun i => draw (s.used + maskRank s.mask i)
  { sample := fun i => if s.mask i then newAt i else s.sample i
    mask := fun i => if s.mask i then ! check (newAt i) else s.mask i
    used := s.used + maskCount s.mask
    tries := s.tries + 1 }

/-- The eager correction loop (lines 233-243): at most the given number of
iterations, stopping early when no flag remains (`if not is_singular.any():
break`). -/
def rsLoop {M : Type} {m : ℕ} (check : M → Bool) (draw : ℕ → M) :
    ℕ → RsState M m → RsState M m
  | 0, s => s
  | t + 1, s =>
    let s2 := rsStep check draw s
    if ∃ i, s2.mask i = true then rsLoop check draw t s2 else s2

/-- The full state produced by `Wishart.rsample` (lines 210-245), eager
branch: the initial candidate is `draw 0 .. draw (m-1)`
(`_bartlett_sampling(sample_shape)`); line 214 sets
`is_singular = self.support.check(sample)` — the check result itself, with no
negation; when any flag is set (line 230) the correction loop runs. -/
def rsampleState {M : Type} (m : ℕ) (check : M → Bool) (draw : ℕ → M)
    (maxTry : ℕ) : RsState M m :=
  let sample0 : Fin m → M := fun i => draw i.1
  let mask0 : Fin m → Bool := fun i => check (sample0 i)
  let s0 : RsState M m := ⟨sample0, mask0, m, 0⟩
  if ∃ i, mask0 i = true then rsLoop check draw maxTry s0 else s0

/-- The samples returned by `Wishart.rsample` (line 245), eager branch. -/
def rsample {M : Type} (m : ℕ) (check : M → Bool) (draw : ℕ → M)
    (maxTry : ℕ) : Fin m → M :=
  (rsampleState m check draw maxTry).sample

/-- One iteration of the traced branch (wishart.py lines 220-226): a full
fresh candidate set (`_bartlett_sampling(sample_shape)`, `m` draws),
`torch.where(is_singular, sample_new, sample)`, then the mask is recomputed
from the merged samples as `~support.check(sample)` (line 224, negated). -/
def rsJitStep {M : Type} {m : ℕ} (check : M → Bool) (draw : ℕ → M)
    (s : RsState M m) : RsState M m :=
  let newAt : Fin m → M := fun i => draw (s.used + i.1)
  let sample2 : Fin m → M := fun i => if s.mask i then newAt i else s.sample i
  { sample := sample2
    mask := fun i => ! check (sample2 i)
    used := s.used + m
    tries := s.tries + 1 }

/-- The traced-branch loop (lines 218-227): exactly `max_try_correction`
iterations, no data-dependent exit. -/
def rsJitLoop {M : Type} {m : ℕ} (check : M → Bool) (draw : ℕ → M) :
    ℕ → RsState M m → RsState M m
  | 0, s => s
  | t + 1, s => rsJitLoop check draw t (rsJitStep check draw s)

/-- The full state of `Wishart.rsample` under tracing: initial candidate and
the unnegated line-214 mask, then the fixed-iteration loop. -/
def rsampleJitState {M : Type} (m : ℕ) (check : M → Bool) (draw : ℕ → M)
    (maxTry : ℕ) : RsState M m :=
  let sample0 : Fin m → M := fun i => draw i.1
  rsJitLoop check draw maxTry ⟨sample0, fun i => check (sample0 i), m, 0⟩

/-! ### Special functions and densities (wishart.py lines 13-21, 247-281) -/

/-- `_mvdigamma` (wishart.py lines 16-21): asserts `x > (p - 1)/2`
(`AssertionError` on violation: "Wrong domain for multivariate digamma
function"), then returns `digamma(x - arange(p)/2).sum(-1)`; `dg` is the
collaborator `torch.digamma`. -/
def _mvdigamma (dg : K → K) (x : K) (pdim : ℕ) : Except PyErr K :=
  if ((pdim : K) - 1) / 2 < x then
    .ok (∑ i : Fin pdim, dg (x - ((i : ℕ) : K) / 2))
  else .error .assertionError

/-- `Wishart.log_prob` (wishart.py lines 247-258) for one batch element:
`lg` = `log` (so `_log_2` is `lg 2` and `slogdet(value).logabsdet` is
`lg |det value|`), `mvlg x p` = `torch.mvlgamma(x, p)`, `nu = self.df`,
`L = self._unbroadcasted_scale_tril`; the last term is the diagonal sum of
`torch.cholesky_solve(value, L)` halved. -/
def log_prob {p : ℕ} (lg : K → K) (mvlg : K → ℕ → K) (nu : K)
    (L value : Matrix (Fin p) (Fin p) K) : K :=
  - nu * (p : K) * lg 2 / 2
  - nu * (∑ i : Fin p, lg (L i i))
  - mvlg (nu / 2) p
  + (nu - (p : K) - 1) / 2 * lg |value.det|
  - Matrix.trace (choleskySolve value L) / 2

/-- The spec formula for `logProb` (spec §4.5 / claim C2), with the trace term
written with explicit inverses: `trace(scaleTril⁻ᵗ · scaleTril⁻¹ · value)/2`. -/
noncomputable def logProbSpec {p : ℕ} (lg : K → K) (mvlg : K → ℕ → K) (nu : K)
    (L value : Matrix (Fin p) (Fin p) K) : K :=
  - (nu * (p : K) * lg 2) / 2
  - nu * (∑ i : Fin p, lg (L i i))
  - mvlg (nu / 2) p
  + (nu - (p : K) - 1) / 2 * lg |value.det|
  - Matrix.trace (Lᵀ⁻¹ * L⁻¹ * value) / 2

/-- `Wishart.entropy` (wishart.py lines 260-270) for one batch element; the
`_mvdigamma` assertion propagates. -/
def entropy {p : ℕ} (lg dg : K → K) (mvlg : K → ℕ → K) (nu : K)
    (L : Matrix (Fin p) (Fin p) K) : Except PyErr K :=
  (_mvdigamma dg (nu / 2) p).map fun md =>
    ((p : K) + 1) * (∑ i : Fin p, lg (L i i))
    + (p : K) * ((p : K) + 1) * lg 2 / 2
    + mvlg (nu / 2) p
    - (nu - (p : K) - 1) / 2 * md
    + nu * (p : K) / 2

/-- The spec formula for `entropy` (spec §4.5 / claim C3), with the
multivariate digamma written out as `∑_{i=0}^{p-1} digamma(df/2 - i/2)`. -/
def entropySpec {p : ℕ} (lg dg : K → K) (mvlg : K → ℕ → K) (nu : K)
    (L : Matrix (Fin p) (Fin p) K) : K :=
  ((p : K) + 1) * (∑ i : Fin p, lg (L i i))
  + (p : K) * ((p : K) + 1) * lg 2 / 2
  + mvlg (nu / 2) p
  - (nu - (p : K) - 1) / 2 * (∑ i : Fin p, dg (nu / 2 - ((i : ℕ) : K) / 2))
  + nu * (p : K) / 2

/-- `Wishart._log_normalizer` (wishart.py lines 279-281): here `p` is bound
locally as `y.shape[-1]`, the matrix dimension; the `_mvdigamma` assertion
propagates. -/
def _log_normalizer {p : ℕ} (lg dg : K → K) (x : K)
    (y : Matrix (Fin p) (Fin p) K) : Except PyErr K :=
  (_mvdigamma dg x p).map fun md =>
    x * (- lg |((-2 : K) • y).det| + lg 2 * (p : K)) + md

/-- The spec formula for the log-normalizer (claim C4):
`η₁ · (-logDet(-2·η₂) + p·log 2) + multivariateDigamma(η₁, p)`. -/
def logNormalizerSpec {p : ℕ} (lg dg : K → K) (x : K)
    (y : Matrix (Fin p) (Fin p) K) : K :=
  x * (- lg |((-2 : K) • y).det| + (p : K) * lg 2)
  + ∑ i : Fin p, dg (x - ((i : ℕ) : K) / 2)

/-- The Python names visible from the body of `Wishart._natural_params`
(wishart.py lines 272-277): its sole local (`self`) together with the
module-level globals of `wishart.py` (the imports of lines 1-10 and the
definitions of lines 13-23). -/
def naturalParamsBoundNames : List String :=
  ["self", "math", "warnings", "Number", "Union", "torch", "constraints",
   "ExponentialFamily", "lazy_property", "_precision_to_scale_tril",
   "_log_2", "_mvdigamma", "Wishart"]

/-- The free names referenced by the body of `Wishart._natural_params`:
`self` (lines 275-276) and the bare name `p` (line 275,
`0.5 * (self.df - p - 1)`), which no enclosing scope binds. -/
def naturalParamsFreeNames : List String :=
  ["self", "p"]

/-- Python evaluation of the `_natural_params` body succeeds only if every
free name resolves against the enclosing scopes; an unresolved name raises
`NameError` before any value is produced. -/
def naturalParamsResolves : Bool :=
  naturalParamsFreeNames.all fun nm => naturalParamsBoundNames.contains nm

/-! ### Theorems -/

/-- For lower-triangular `L` with nowhere-zero diagonal, the two-triangular-solve
`choleskySolve` agrees with the inverse form `(L Lᵀ)⁻¹ B = Lᵀ⁻¹ L⁻¹ B`. -/
theorem choleskySolve_eq_inv {n : ℕ} (B L : Matrix (Fin n) (Fin n) K)
    (hL : IsLowerTri L) (hd : HasUnitDiagDom L) :
    choleskySolve B L = Lᵀ⁻¹ * L⁻¹ * B := by
  have h1 : (L * Lᵀ) * choleskySolve B L = B := choleskySolve_solves B L hL hd
  have h2 : (L * Lᵀ) * choleskySolve 1 L = 1 := choleskySolve_solves 1 L hL hd
  have hdet : IsUnit (L * Lᵀ).det := Matrix.isUnit_det_of_right_inverse h2
  have h3 : choleskySolve B L = (L * Lᵀ)⁻¹ * B := by
    calc choleskySolve B L
        = ((L * Lᵀ)⁻¹ * (L * Lᵀ)) * choleskySolve B L := by
          rw [Matrix.nonsing_inv_mul _ hdet, one_mul]
      _ = (L * Lᵀ)⁻¹ * ((L * Lᵀ) * choleskySolve B L) := by
          rw [Matrix.mul_assoc]
      _ = (L * Lᵀ)⁻¹ * B := by rw [h1]
  rw [h3, Matrix.mul_inv_rev]

/-- **C7.** For every constructed distribution with canonical scale factor
`L = scaleTril` (lower triangular, nonzero diagonal), the covariance accessor
returns `L·Lᵗ`, the precision accessor returns the solution `X` of
`L·Lᵗ·X = I` obtained by the two triangular solves of `choleskySolve`, and
over exact arithmetic `precision · covariance = I` (and symmetrically). -/
theorem wishart_precision_covariance_inverse {p : ℕ}
    (L : Matrix (Fin p) (Fin p) K) (hL : IsLowerTri L) (hd : HasUnitDiagDom L) :
    covariance_matrix L = L * Lᵀ
    ∧ (L * Lᵀ) * precision_matrix L = 1
    ∧ precision_matrix L * covariance_matrix L = 1
    ∧ covariance_matrix L * precision_matrix L = 1 := by
  have h2 : (L * Lᵀ) * choleskySolve 1 L = 1 := choleskySolve_solves 1 L hL hd
  exact ⟨rfl, h2, Matrix.mul_eq_one_comm.mp h2, h2⟩

/-- Witness for C7 at the concrete scale factor `[[1,0],[2,3]]` over `ℚ`. -/
theorem wishart_precision_covariance_inverse_witness :
    IsLowerTri (K := ℚ) !![1, 0; 2, 3] ∧ HasUnitDiagDom (K := ℚ) !![1, 0; 2, 3]
    ∧ precision_matrix (K := ℚ) !![1, 0; 2, 3] * covariance_matrix !![1, 0; 2, 3] = 1 := by
  have h1 : IsLowerTri (K := ℚ) !![1, 0; 2, 3] := by decide
  have h2 : HasUnitDiagDom (K := ℚ) !![1, 0; 2, 3] := by decide
  exact ⟨h1, h2, (wishart_precision_covariance_inverse !![1, 0; 2, 3] h1 h2).2.2.1⟩

/-- **C2.** For every constructed distribution (df `nu`, dimension `p`,
canonical factor `L` lower triangular with nonzero diagonal) and every value,
`Wishart.log_prob` equals
`-(df·p·log2)/2 - df·Σ log(diag L) - mvlgamma(df/2, p)
 + ((df-p-1)/2)·logDet(value) - trace(L⁻ᵗ·L⁻¹·value)/2`,
the trace term being computed by a Cholesky-solve of `value` against `L`. -/
theorem wishart_log_prob_matches_spec {p : ℕ} (lg : K → K) (mvlg : K → ℕ → K)
    (nu : K) (L value : Matrix (Fin p) (Fin p) K)
    (hL : IsLowerTri L) (hd : HasUnitDiagDom L) :
    log_prob lg mvlg nu L value = logProbSpec lg mvlg nu L value := by
  unfold log_prob logProbSpec
  rw [choleskySolve_eq_inv value L hL hd]
  ring

/-- Witness for C2 over `ℚ` with `p = 1`, `L = [[2]]`, `value = [[5]]`. -/
theorem wishart_log_prob_matches_spec_witness :
    IsLowerTri (K := ℚ) !![2] ∧ HasUnitDiagDom (K := ℚ) !![2]
    ∧ log_prob (K := ℚ) id (fun x _ => x) 3 !![2] !![5]
        = logProbSpec id (fun x _ => x) 3 !![2] !![5] := by
  have h1 : IsLowerTri (K := ℚ) !![2] := by decide
  have h2 : HasUnitDiagDom (K := ℚ) !![2] := by decide
  exact ⟨h1, h2, wishart_log_prob_matches_spec id (fun x _ => x) 3 !![2] !![5] h1 h2⟩

/-- **C3.** For every constructed distribution with `df/2` in the domain of
the multivariate digamma, `Wishart.entropy` equals
`(p+1)·Σ log(diag L) + p·(p+1)·log2/2 + mvlgamma(df/2, p)
 - ((df-p-1)/2)·mvdigamma(df/2, p) + df·p/2`
with `mvdigamma(x, p) = Σ_{i=0}^{p-1} digamma(x - i/2)`; and `_mvdigamma`
fails its precondition (`AssertionError`) whenever `x ≤ (p-1)/2`. -/
theorem wishart_entropy_matches_spec {p : ℕ} (lg dg : K → K) (mvlg : K → ℕ → K)
    (nu : K) (L : Matrix (Fin p) (Fin p) K)
    (hdom : ((p : K) - 1) / 2 < nu / 2) :
    entropy lg dg mvlg nu L = .ok (entropySpec lg dg mvlg nu L)
    ∧ ∀ x : K, x ≤ ((p : K) - 1) / 2 →
        _mvdigamma dg x p = .error .assertionError := by
  constructor
  · unfold entropy _mvdigamma entropySpec
    rw [if_pos hdom]
    rfl
  · intro x hx
    unfold _mvdigamma
    rw [if_neg (not_lt.mpr hx)]

/-- Witness for C3 over `ℚ` with `p = 2`, `df = 4`, `L` the identity. -/
theorem wishart_entropy_matches_spec_witness :
    (((2 : ℕ) : ℚ) - 1) / 2 < 4 / 2
    ∧ entropy (K := ℚ) id id (fun x _ => x) 4 (1 : Matrix (Fin 2) (Fin 2) ℚ)
        = .ok (entropySpec id id (fun x _ => x) 4 (1 : Matrix (Fin 2) (Fin 2) ℚ))
    ∧ _mvdigamma (K := ℚ) id 0 2 = .error .assertionError := by
  have h : (((2 : ℕ) : ℚ) - 1) / 2 < 4 / 2 := by norm_num
  have h0 : (0 : ℚ) ≤ (((2 : ℕ) : ℚ) - 1) / 2 := by norm_num
  exact ⟨h,
    (wishart_entropy_matches_spec id id (fun x _ => x) 4
      (1 : Matrix (Fin 2) (Fin 2) ℚ) h).1,
    (wishart_entropy_matches_spec id id (fun x _ => x) 4
      (1 : Matrix (Fin 2) (Fin 2) ℚ) h).2 0 h0⟩

/-- **C4.** (code bug) Reading `Wishart._natural_params` does not yield the
natural-parameter pair: the bare name `p` at wishart.py line 275 is bound in
no enclosing scope, so the access raises `NameError` before producing any
value.  The log-normalizer half of the claim does hold: for `x` in the
multivariate digamma domain, `_log_normalizer x y` equals
`x·(-logDet(-2·y) + p·log 2) + Σ_{i<p} digamma(x - i/2)`. -/
theorem wishart_natural_params_name_error {p : ℕ} (lg dg : K → K) (x : K)
    (y : Matrix (Fin p) (Fin p) K) (hdom : ((p : K) - 1) / 2 < x) :
    naturalParamsResolves = false
    ∧ _log_normalizer lg dg x y = .ok (logNormalizerSpec lg dg x y) := by
  refine ⟨by decide, ?_⟩
  unfold _log_normalizer _mvdigamma logNormalizerSpec
  rw [if_pos hdom]
  simp only [Except.map, Except.ok.injEq]
  ring

/-- Witness for C4 over `ℚ` with `p = 1`, `x = 1`, `y = [[1]]`. -/
theorem wishart_natural_params_name_error_witness :
    (((1 : ℕ) : ℚ) - 1) / 2 < 1
    ∧ naturalParamsResolves = false
    ∧ _log_normalizer (K := ℚ) id id 1 !![1]
        = .ok (logNormalizerSpec id id 1 !![1]) := by
  have h : (((1 : ℕ) : ℚ) - 1) / 2 < 1 := by norm_num
  exact ⟨h, (wishart_natural_params_name_error id id 1 !![1] h).1,
    (wishart_natural_params_name_error id id 1 !![1] h).2⟩

/-- **C5.** Construction fails with `ValueError` (the spec's
`InvalidArgument`) whenever some batch element of `df` is `≤ p - 1` — in
particular `df = p - 1` exactly is rejected — and succeeds when every element
strictly exceeds `p - 1`, emitting the non-fatal low-df warning exactly when
some element is strictly below `p`. -/
theorem wishart_df_validation {p : ℕ} (df : List K) (t : Tensor2 K p)
    (chol : Matrix (Fin p) (Fin p) K → Option (Matrix (Fin p) (Fin p) K))
    (cls : ArgConstraints K) (hrank : ¬ t.ndim < 2) :
    ((∃ d ∈ df, d ≤ (p : K) - 1) →
        wishartInit df none none (some t) chol cls = (.error .valueError, cls))
    ∧ ((p : K) - 1 ∈ df →
        wishartInit df none none (some t) chol cls = (.error .valueError, cls))
    ∧ ((∀ d ∈ df, (p : K) - 1 < d) →
        wishartInit df none none (some t) chol cls =
          (.ok ⟨df, t.mat, df.any fun d => decide (d < (p : K))⟩, ⟨(p : K) - 1⟩)
        ∧ ((df.any fun d => decide (d < (p : K))) = true ↔
            ∃ d ∈ df, d < (p : K))) := by
  have hreject : ∀ _ : ∃ d ∈ df, d ≤ (p : K) - 1,
      wishartInit df none none (some t) chol cls = (.error .valueError, cls) := by
    intro hex
    have hany : (df.any fun d => decide (d ≤ (p : K) - 1)) = true := by
      rcases hex with ⟨d, hd, hle⟩
      exact List.any_eq_true.mpr ⟨d, hd, decide_eq_true hle⟩
    simp [wishartInit, hrank, hany]
  refine ⟨hreject, ?_, ?_⟩
  · intro hmem
    exact hreject ⟨(p : K) - 1, hmem, le_refl _⟩
  · intro hall
    have hany : (df.any fun d => decide (d ≤ (p : K) - 1)) = false := by
      rw [List.any_eq_false]
      intro d hd
      simpa using not_le.mpr (hall d hd)
    constructor
    · simp [wishartInit, hrank, hany]
    · simp [List.any_eq_true]

/-- Witness for C5 over `ℚ` with `p = 2`: `df = [1]` (the `p - 1` boundary) is
rejected; `df = [3/2]` succeeds with the low-df warning; `df = [5]` succeeds
without it. -/
theorem wishart_df_validation_witness :
    (¬ (⟨2, !![1, 0; 0, 1]⟩ : Tensor2 ℚ 2).ndim < 2)
    ∧ wishartInit [(1 : ℚ)] none none (some ⟨2, !![1, 0; 0, 1]⟩)
        (fun _ => none) ⟨0⟩ = (.error .valueError, ⟨0⟩)
    ∧ wishartInit [(3/2 : ℚ)] none none (some ⟨2, !![1, 0; 0, 1]⟩)
        (fun _ => none) ⟨0⟩ =
        (.ok ⟨[(3/2 : ℚ)], !![1, 0; 0, 1], true⟩, ⟨((2 : ℕ) : ℚ) - 1⟩)
    ∧ wishartInit [(5 : ℚ)] none none (some ⟨2, !![1, 0; 0, 1]⟩)
        (fun _ => none) ⟨0⟩ =
        (.ok ⟨[(5 : ℚ)], !![1, 0; 0, 1], false⟩, ⟨((2 : ℕ) : ℚ) - 1⟩) := by
  have hrank : ¬ (⟨2, !![1, 0; 0, 1]⟩ : Tensor2 ℚ 2).ndim < 2 := by decide
  refine ⟨hrank, ?_, ?_, ?_⟩
  · exact (wishart_df_validation [(1 : ℚ)] ⟨2, !![1, 0; 0, 1]⟩ (fun _ => none)
      ⟨0⟩ hrank).2.1 (by norm_num)
  · have h := ((wishart_df_validation [(3/2 : ℚ)] ⟨2, !![1, 0; 0, 1]⟩
      (fun _ => none) ⟨0⟩ hrank).2.2 (by intro d hd; simp at hd; norm_num [hd])).1
    rw [h]
    norm_num
  · have h := ((wishart_df_validation [(5 : ℚ)] ⟨2, !![1, 0; 0, 1]⟩
      (fun _ => none) ⟨0⟩ hrank).2.2 (by intro d hd; simp at hd; norm_num [hd])).1
    rw [h]
    norm_num

/-- **C6.** The constructor fails with Python `AssertionError` (the spec's
`InvalidArgument`) when zero of the three parameterizations is supplied or
when more than one is, fails with `ValueError` when the single supplied
tensor has fewer than two axes, and with exactly one parameterization of rank
at least two produces the canonical factor: `scale_tril` used as-is,
`covariance_matrix` through the collaborator Cholesky factorization, and
`precision_matrix` through `_precision_to_scale_tril`
(Cholesky-of-precision followed by triangular back-substitution). -/
theorem wishart_init_parameterization_cases {p : ℕ} (df : List K)
    (t u : Tensor2 K p)
    (chol : Matrix (Fin p) (Fin p) K → Option (Matrix (Fin p) (Fin p) K))
    (cls : ArgConstraints K)
    (hrank : ¬ t.ndim < 2)
    (hdf : (df.any fun d => decide (d ≤ (p : K) - 1)) = false) :
    (wishartInit df none none none chol cls = (.error .assertionError, cls))
    ∧ (wishartInit df (some t) (some u) none chol cls
        = (.error .assertionError, cls))
    ∧ (wishartInit df (some t) none (some u) chol cls
        = (.error .assertionError, cls))
    ∧ (wishartInit df none (some t) (some u) chol cls
        = (.error .assertionError, cls))
    ∧ (wishartInit df (some t) (some u) (some u) chol cls
        = (.error .assertionError, cls))
    ∧ (u.ndim < 2 →
        wishartInit df (some u) none none chol cls = (.error .valueError, cls)
        ∧ wishartInit df none (some u) none chol cls = (.error .valueError, cls)
        ∧ wishartInit df none none (some u) chol cls = (.error .valueError, cls))
    ∧ (wishartInit df none none (some t) chol cls =
        (.ok ⟨df, t.mat, df.any fun d => decide (d < (p : K))⟩, ⟨(p : K) - 1⟩))
    ∧ (∀ L, chol t.mat = some L →
        wishartInit df (some t) none none chol cls =
          (.ok ⟨df, L, df.any fun d => decide (d < (p : K))⟩, ⟨(p : K) - 1⟩))
    ∧ (chol t.mat = none →
        wishartInit df (some t) none none chol cls
          = (.error .notPositiveDefinite, ⟨(p : K) - 1⟩))
    ∧ (∀ Lp, chol t.mat = some Lp →
        wishartInit df none (some t) none chol cls =
          (.ok ⟨df, (forwardSubst Lp 1)ᵀ,
            df.any fun d => decide (d < (p : K))⟩, ⟨(p : K) - 1⟩))
    ∧ (chol t.mat = none →
        wishartInit df none (some t) none chol cls
          = (.error .notPositiveDefinite, ⟨(p : K) - 1⟩)) := by
  refine ⟨by simp [wishartInit], by simp [wishartInit], by simp [wishartInit],
    by simp [wishartInit], by simp [wishartInit], ?_, ?_, ?_, ?_, ?_, ?_⟩
  · intro hu
    exact ⟨by simp [wishartInit, hu], by simp [wishartInit, hu],
      by simp [wishartInit, hu]⟩
  · simp [wishartInit, hrank, hdf]
  · intro L hL
    simp [wishartInit, hrank, hdf, hL]
  · intro hL
    simp [wishartInit, hrank, hdf, hL]
  · intro Lp hLp
    simp [wishartInit, hrank, hdf, precisionToScaleTril, hLp]
  · intro hLp
    simp [wishartInit, hrank, hdf, precisionToScaleTril, hLp]

/-- Witness for C6 over `ℚ` with `p = 2`: zero parameterizations supplied is
an `AssertionError`; a rank-1 `scale_tril` is a `ValueError`; a valid
`scale_tril` is used as-is. -/
theorem wishart_init_parameterization_cases_witness :
    (¬ (⟨2, !![1, 0; 2, 3]⟩ : Tensor2 ℚ 2).ndim < 2)
    ∧ ([(5 : ℚ)].any fun d => decide (d ≤ ((2 : ℕ) : ℚ) - 1)) = false
    ∧ wishartInit (p := 2) [(5 : ℚ)] none none none (fun _ => none) ⟨0⟩
        = (.error .assertionError, ⟨0⟩)
    ∧ wishartInit [(5 : ℚ)] none none (some ⟨1, !![1, 0; 2, 3]⟩)
        (fun _ => none) ⟨0⟩ = (.error .valueError, ⟨0⟩)
    ∧ wishartInit [(5 : ℚ)] none none (some ⟨2, !![1, 0; 2, 3]⟩)
        (fun _ => none) ⟨0⟩ =
        (.ok ⟨[(5 : ℚ)], !![1, 0; 2, 3],
          [(5 : ℚ)].any fun d => decide (d < ((2 : ℕ) : ℚ))⟩,
         ⟨((2 : ℕ) : ℚ) - 1⟩) := by
  have hrank : ¬ (⟨2, !![1, 0; 2, 3]⟩ : Tensor2 ℚ 2).ndim < 2 := by decide
  have hdf : ([(5 : ℚ)].any fun d => decide (d ≤ ((2 : ℕ) : ℚ) - 1)) = false := by
    norm_num
  have h := wishart_init_parameterization_cases [(5 : ℚ)]
    (⟨2, !![1, 0; 2, 3]⟩ : Tensor2 ℚ 2) (⟨1, !![1, 0; 2, 3]⟩ : Tensor2 ℚ 2)
    (fun _ => none) ⟨0⟩ hrank hdf
  exact ⟨hrank, hdf, h.1, (h.2.2.2.2.2.1 (by decide)).2.2, h.2.2.2.2.2.2.1⟩

/-- **C10.** `Wishart.arg_constraints` is a class-level dictionary shared by
all instances; wishart.py line 92 overwrites its `df` entry with
`greater_than(p - 1)` for the dimension under construction, so after a second
construction of a different dimension the shared entry holds the most recent
bound, not the first instance's own one. -/
theorem wishart_arg_constraints_shared_mutation {p₁ p₂ : ℕ}
    (df₁ df₂ : List K) (t₁ : Tensor2 K p₁) (t₂ : Tensor2 K p₂)
    (chol₁ : Matrix (Fin p₁) (Fin p₁) K → Option (Matrix (Fin p₁) (Fin p₁) K))
    (chol₂ : Matrix (Fin p₂) (Fin p₂) K → Option (Matrix (Fin p₂) (Fin p₂) K))
    (cls : ArgConstraints K)
    (h₁ : ¬ t₁.ndim < 2)
    (hdf₁ : (df₁.any fun d => decide (d ≤ (p₁ : K) - 1)) = false)
    (h₂ : ¬ t₂.ndim < 2)
    (hdf₂ : (df₂.any fun d => decide (d ≤ (p₂ : K) - 1)) = false)
    (hne : p₁ ≠ p₂) :
    (wishartInit df₁ none none (some t₁) chol₁ cls).2 = ⟨(p₁ : K) - 1⟩
    ∧ (wishartInit df₂ none none (some t₂) chol₂
        (wishartInit df₁ none none (some t₁) chol₁ cls).2).2 = ⟨(p₂ : K) - 1⟩
    ∧ (⟨(p₂ : K) - 1⟩ : ArgConstraints K) ≠ ⟨(p₁ : K) - 1⟩ := by
  refine ⟨by simp [wishartInit, h₁, hdf₁], by simp [wishartInit, h₂, hdf₂], ?_⟩
  intro h
  have hcast : (p₂ : K) = (p₁ : K) := by
    have := congrArg ArgConstraints.dfGreaterThan h
    simpa [sub_left_inj] using this
  exact hne (Nat.cast_injective hcast).symm

/-- Witness for C10 over `ℚ`: constructing dimension 2 then dimension 3
leaves the shared `df` bound at `3 - 1 = 2`, not the first instance's `1`. -/
theorem wishart_arg_constraints_shared_mutation_witness :
    (¬ (⟨2, !![1, 0; 0, 1]⟩ : Tensor2 ℚ 2).ndim < 2)
    ∧ ([(5 : ℚ)].any fun d => decide (d ≤ ((2 : ℕ) : ℚ) - 1)) = false
    ∧ (¬ (⟨2, (1 : Matrix (Fin 3) (Fin 3) ℚ)⟩ : Tensor2 ℚ 3).ndim < 2)
    ∧ ([(5 : ℚ)].any fun d => decide (d ≤ ((3 : ℕ) : ℚ) - 1)) = false
    ∧ (wishartInit [(5 : ℚ)] none none
        (some (⟨2, (1 : Matrix (Fin 3) (Fin 3) ℚ)⟩ : Tensor2 ℚ 3))
        (fun _ => none)
        (wishartInit [(5 : ℚ)] none none
          (some (⟨2, !![1, 0; 0, 1]⟩ : Tensor2 ℚ 2)) (fun _ => none) ⟨0⟩).2).2
      = ⟨((3 : ℕ) : ℚ) - 1⟩
    ∧ (⟨((3 : ℕ) : ℚ) - 1⟩ : ArgConstraints ℚ) ≠ ⟨((2 : ℕ) : ℚ) - 1⟩ := by
  have h₁ : ¬ (⟨2, !![1, 0; 0, 1]⟩ : Tensor2 ℚ 2).ndim < 2 := by decide
  have hdf₁ : ([(5 : ℚ)].any fun d => decide (d ≤ ((2 : ℕ) : ℚ) - 1)) = false := by
    norm_num
  have h₂ : ¬ (⟨2, (1 : Matrix (Fin 3) (Fin 3) ℚ)⟩ : Tensor2 ℚ 3).ndim < 2 := by
    decide
  have hdf₂ : ([(5 : ℚ)].any fun d => decide (d ≤ ((3 : ℕ) : ℚ) - 1)) = false := by
    norm_num
  have h := wishart_arg_constraints_shared_mutation [(5 : ℚ)] [(5 : ℚ)]
    (⟨2, !![1, 0; 0, 1]⟩ : Tensor2 ℚ 2)
    (⟨2, (1 : Matrix (Fin 3) (Fin 3) ℚ)⟩ : Tensor2 ℚ 3)
    (fun _ => none) (fun _ => none) ⟨0⟩ h₁ hdf₁ h₂ hdf₂ (by decide)
  exact ⟨h₁, hdf₁, h₂, hdf₂, h.2.1, h.2.2⟩

/-- The strictly-below-diagonal positions of a `p × p` matrix number
`p·(p-1)/2` — the length of the `randn` vector at wishart.py line 190. -/
theorem trilStrictIndices_card (p : ℕ) :
    (trilStrictIndices p).card = p * (p - 1) / 2 := by
  classical
  rw [trilStrictIndices, Finset.card_filter, Fintype.sum_prod_type]
  have h1 : ∀ i : Fin p,
      (∑ j : Fin p, if (i, j).2 < (i, j).1 then (1 : ℕ) else 0) = i.1 := by
    intro i
    have hc : (∑ j : Fin p, if (i, j).2 < (i, j).1 then (1 : ℕ) else 0)
        = (Finset.univ.filter fun j : Fin p => j < i).card := by
      rw [Finset.card_filter]
    have hio : Finset.univ.filter (fun j : Fin p => j < i) = Finset.Iio i := by
      ext j
      simp
    rw [hc, hio, Fin.card_Iio]
  rw [Finset.sum_congr rfl fun i _ => h1 i,
    Fin.sum_univ_eq_sum_range (fun i => i) p, Finset.sum_range_id]

/-- **C8.** One Bartlett draw: the chi-squared degrees-of-freedom vector has
slot `i` equal to `df - i`; the noise matrix carries the square roots of the
chi-squared variates on its diagonal, the `p·(p-1)/2` supplied standard-normal
draws strictly below the diagonal, zeros above; and the draw returned is
`(scaleTril·A)·(scaleTril·A)ᵗ`, symmetric by construction. -/
theorem wishart_bartlett_structure {p : ℕ} (sqrtf : K → K) (df : K)
    (chi2 : Fin p → K) (z : Fin p → Fin p → K)
    (L : Matrix (Fin p) (Fin p) K) :
    (∀ i : Fin p, bartlettChi2Df df i = df - ((i : ℕ) : K))
    ∧ (∀ i : Fin p, bartlettNoise sqrtf chi2 z i i = sqrtf (chi2 i))
    ∧ (∀ i j : Fin p, j < i → bartlettNoise sqrtf chi2 z i j = z i j)
    ∧ (∀ i j : Fin p, i < j → bartlettNoise sqrtf chi2 z i j = 0)
    ∧ (trilStrictIndices p).card = p * (p - 1) / 2
    ∧ _bartlett_sampling L (bartlettNoise sqrtf chi2 z)
        = (L * bartlettNoise sqrtf chi2 z) * (L * bartlettNoise sqrtf chi2 z)ᵀ
    ∧ (_bartlett_sampling L (bartlettNoise sqrtf chi2 z))ᵀ
        = _bartlett_sampling L (bartlettNoise sqrtf chi2 z) := by
  refine ⟨fun i => rfl, fun i => by simp [bartlettNoise],
    fun i j hji => ?_, fun i j hij => ?_,
    trilStrictIndices_card p, rfl, ?_⟩
  · simp [bartlettNoise, ne_of_gt hji, hji]
  · simp [bartlettNoise, ne_of_lt hij, lt_asymm hij]
  · unfold _bartlett_sampling
    rw [Matrix.transpose_mul, Matrix.transpose_transpose]

/-- One non-break iteration adds one to the loop counter. -/
theorem rsStep_tries {M : Type} {m : ℕ} (check : M → Bool) (draw : ℕ → M)
    (s : RsState M m) : (rsStep check draw s).tries = s.tries + 1 :=
  rfl

/-- The eager correction loop runs at most its fuel many iterations. -/
theorem rsLoop_tries_le {M : Type} {m : ℕ} (check : M → Bool) (draw : ℕ → M)
    (t : ℕ) : ∀ s : RsState M m,
    (rsLoop check draw t s).tries ≤ s.tries + t := by
  induction t with
  | zero => intro s; simp [rsLoop]
  | succ t ih =>
    intro s
    rw [rsLoop]
    split
    · have h := ih (rsStep check draw s)
      rw [rsStep_tries] at h
      omega
    · rw [rsStep_tries]
      omega

/-- The traced-branch loop runs exactly its fuel many iterations. -/
theorem rsJitLoop_tries {M : Type} {m : ℕ} (check : M → Bool) (draw : ℕ → M)
    (t : ℕ) : ∀ s : RsState M m,
    (rsJitLoop check draw t s).tries = s.tries + t := by
  induction t with
  | zero => intro s; simp [rsJitLoop]
  | succ t ih =>
    intro s
    rw [rsJitLoop, ih (rsJitStep check draw s)]
    show s.tries + 1 + t = s.tries + (t + 1)
    omega

/-- **C9.** The correction loop executes at most `max_try_correction`
iterations in both execution modes; the argument defaults to 10 eagerly and
to 3 under trace/graph capture; and with `max_try_correction = 0` no redraw
occurs — the first Bartlett draws are returned as-is even if singular. -/
theorem wishart_rsample_retry_bound {M : Type} (m : ℕ) (check : M → Bool)
    (draw : ℕ → M) (maxTry : ℕ) :
    resolveMaxTry none false = 10
    ∧ resolveMaxTry none true = 3
    ∧ (∀ k : ℕ, resolveMaxTry (some k) true = k ∧ resolveMaxTry (some k) false = k)
    ∧ (rsampleState m check draw maxTry).tries ≤ maxTry
    ∧ (rsampleJitState m check draw maxTry).tries = maxTry
    ∧ rsample m check draw 0 = (fun i => draw i.1)
    ∧ (rsampleJitState m check draw 0).sample = (fun i => draw i.1) := by
  refine ⟨rfl, rfl, fun k => ⟨rfl, rfl⟩, ?_, ?_, ?_, rfl⟩
  · rw [rsampleState]
    dsimp only
    split
    · have h := rsLoop_tries_le check draw maxTry
        (⟨fun i => draw i.1, fun i => check (draw i.1), m, 0⟩ : RsState M m)
      simpa using h
    · simp
  · rw [rsampleJitState, rsJitLoop_tries]
    simp
  · rw [rsample, rsampleState]
    dsimp only
    split <;> rfl

/-- **C1.** (code bug) The mask of wishart.py line 214 is
`self.support.check(sample)`, not its negation, so the slots treated as
singular are exactly the ones that PASS the positive-definiteness test.  With
one slot and every draw passing the check (`check ≡ true`), the originally
drawn value (draw 0) is discarded and replaced by the redraw (draw 1); with a
first draw failing the check (`check ≡ false`), the singular sample is kept
and no redraw happens.  Both contradict the claim that exactly the failing
slots are redrawn and passing slots keep their original value. -/
theorem wishart_rsample_inverted_singularity_mask :
    rsample (M := ℕ) 1 (fun _ => true) (fun n => n) 10 0 = 1
    ∧ rsample (M := ℕ) 1 (fun _ => false) (fun n => n) 10 0 = 0
    ∧ (1 : ℕ) ≠ 0 := by
  refine ⟨?_, rfl, by decide⟩
  decide

end WishartVerify
